import Mathlib

/-!
Formal model of the georlist blocklist compiler.

This file gives a shallow embedding, in Lean 4, of the parts of the
repository that its specification talks about:

* `compile.ts` (first variant): the configuration schema and `validateConfig`,
  `securePath` / `secureWriteFile`, `fetchWithTimeout`, and the
  fetch → normalize → filter → format → publish pipeline of `compileBlocklist`;
* `cron.ts` (`startScheduler`): the consecutive-failure bookkeeping of the
  scheduled tick handler.

JavaScript strings are modelled as Lean `String`s.  Because the built-in
`String.trim` / `String.splitOn` do not reduce inside the kernel, the
character-level operations used by the source (`trim`, `split('\n')`,
`startsWith`, `includes`) are re-implemented here by structural recursion
over `String.toList`, with the same semantics on the inputs that matter
(JS `trim` strips the same ASCII whitespace recognised by
`Char.isWhitespace`; exotic Unicode whitespace plays no role in any claim).

All definitions are executable and kernel-reducible, so concrete runs can
be settled by `decide` / `rfl`.
-/

set_option maxRecDepth 100000
set_option maxHeartbeats 4000000

namespace Georlist

/-- Characters of `cs` with leading and trailing whitespace removed; the
model of JS `String.prototype.trim` used throughout `compile.ts`. -/
def trimChars (cs : List Char) : List Char :=
  ((cs.dropWhile Char.isWhitespace).reverse.dropWhile Char.isWhitespace).reverse

/-- JS `s.trim()`. -/
def jsTrim (s : String) : String := String.mk (trimChars s.toList)

/-- Accumulator-style splitter for `jsSplitLines`. -/
def splitLinesAux (acc : List Char) : List Char → List (List Char)
  | [] => [acc.reverse]
  | c :: cs =>
    if c = '\n' then acc.reverse :: splitLinesAux [] cs
    else splitLinesAux (c :: acc) cs

/-- JS `content.split('\n')` (compile.ts line 250). -/
def jsSplitLines (s : String) : List String :=
  (splitLinesAux [] s.toList).map String.mk

/-- JS `s.startsWith(pre)`. -/
def strStartsWith (s pre : String) : Bool := pre.toList.isPrefixOf s.toList

/-- Helper for `strIncludes`: is `pat` an infix of the given character list? -/
def inclAux (pat : List Char) : List Char → Bool
  | [] => pat.isPrefixOf []
  | c :: cs => pat.isPrefixOf (c :: cs) || inclAux pat cs

/-- JS `s.includes(pat)` (substring containment). -/
def strIncludes (s pat : String) : Bool := inclAux pat.toList s.toList

/-!
## LineNormalizer (compile.ts lines 249-257)

Each fetched document is split on newlines, every line is trimmed, and
empty lines are dropped.  (The batched `push` of lines 265-270 appends
the batches in order, which is the same list as a plain append.)
-/

/-- Normalization of one fetched document into rule lines. -/
def normalizeLines (content : String) : List String :=
  ((jsSplitLines content).map jsTrim).filter (fun l => decide (0 < l.length))

/-!
## RuleFilterPipeline (compile.ts lines 293-329)
-/

/-- Keep-predicate of the comment/header strip stage (compile.ts 295-301):
the trimmed line is nonempty and does not start with one of the comment
markers. -/
def stripCommentKeep (rule : String) : Bool :=
  let t := jsTrim rule
  decide (0 < t.length) && !(strStartsWith t "#") && !(strStartsWith t "!")
    && !(strStartsWith t "[")

/-- Comment/header strip stage. -/
def stripComments (rules : List String) : List String :=
  rules.filter stripCommentKeep

/-- Worker for `dedupRules`: `seen` is the set of lines already inserted
into the JS `Set`. -/
def dedupGo (seen : List String) : List String → List String
  | [] => []
  | x :: xs => if x ∈ seen then dedupGo seen xs else x :: dedupGo (x :: seen) xs

/-- Deduplication stage, `[...new Set(processedRules)]` (compile.ts 311):
a JS `Set` iterates in insertion order, so spreading it yields the list of
first occurrences. -/
def dedupRules (rules : List String) : List String := dedupGo [] rules

/-- Keep-predicate of the syntactic-validation stage (compile.ts 317-320):
the trimmed line includes a dot, includes no space character, and is
longer than 3. -/
def validateKeep (rule : String) : Bool :=
  let t := jsTrim rule
  decide ('.' ∈ t.toList) && !(decide (' ' ∈ t.toList)) && decide (3 < t.length)

/-- Syntactic-validation stage. -/
def validateRules (rules : List String) : List String :=
  rules.filter validateKeep

/-- Specification-side definition for claim C5 (refinement): keep the first
occurrence of each exact line, in order, by repeatedly dropping all later
duplicates of the head. -/
def firstOccurrences : List String → List String
  | [] => []
  | x :: xs => x :: firstOccurrences (xs.filter (fun y => decide (y ≠ x)))
termination_by l => l.length
decreasing_by
  simp only [List.length_cons]
  exact Nat.lt_succ_of_le (List.length_filter_le _ _)

/-- Keep-predicate exactly as claim C7 words it: at least one dot, no
whitespace character of any kind, length strictly greater than 3 (no
trimming mentioned). -/
def specC7Keep (rule : String) : Bool :=
  decide ('.' ∈ rule.toList) && !(rule.toList.any Char.isWhitespace)
    && decide (3 < rule.length)

/-- The guarded rule-filter pipeline of `compileBlocklist`
(compile.ts 284-331): the empty-input guard, comment strip with its guard,
dedup, validation with its emptiness guard and the minimum-rule-count
guard (100). -/
def filterPipeline (allRules : List String) : Except String (List String) :=
  if allRules.length = 0 then
    Except.error "CRITICAL: No rules were collected from any sources. Cannot proceed."
  else
    let afterComments := stripComments allRules
    if afterComments.length = 0 then
      Except.error "CRITICAL: No valid rules remaining after removing comments."
    else
      let validated := validateRules (dedupRules afterComments)
      if validated.length = 0 then
        Except.error "CRITICAL: No valid rules remaining after validation."
      else if validated.length < 100 then
        Except.error ("CRITICAL: Only " ++ toString validated.length ++ " rules remaining, which seems too low.")
      else
        Except.ok validated

/-!
## Lemmas about the deduplication stage
-/

theorem dedupGo_sublist (l : List String) : ∀ seen, (dedupGo seen l).Sublist l := by
  induction l with
  | nil => intro seen; simp [dedupGo]
  | cons x xs ih =>
    intro seen
    simp only [dedupGo]
    by_cases h : x ∈ seen
    · rw [if_pos h]
      exact (ih seen).trans (List.sublist_cons_self x xs)
    · rw [if_neg h]
      exact (ih (x :: seen)).cons₂ x

theorem mem_dedupGo (x : String) (l : List String) :
    ∀ seen, x ∈ dedupGo seen l ↔ x ∈ l ∧ x ∉ seen := by
  induction l with
  | nil => intro seen; simp [dedupGo]
  | cons y ys ih =>
    intro seen
    simp only [dedupGo]
    by_cases h : y ∈ seen
    · rw [if_pos h, ih seen, List.mem_cons]
      constructor
      · rintro ⟨hx, hs⟩
        exact ⟨Or.inr hx, hs⟩
      · rintro ⟨hx | hx, hs⟩
        · exact absurd (hx ▸ h) hs
        · exact ⟨hx, hs⟩
    · rw [if_neg h]
      simp only [List.mem_cons, ih (y :: seen)]
      by_cases hxy : x = y
      · subst hxy; simp [h]
      · simp [hxy]

theorem dedupGo_nodup (l : List String) : ∀ seen, (dedupGo seen l).Nodup := by
  induction l with
  | nil => intro seen; simp [dedupGo]
  | cons y ys ih =>
    intro seen
    simp only [dedupGo]
    by_cases h : y ∈ seen
    · rw [if_pos h]; exact ih seen
    · rw [if_neg h]
      refine List.nodup_cons.mpr ⟨?_, ih (y :: seen)⟩
      intro hc
      exact ((mem_dedupGo y ys (y :: seen)).mp hc).2 (List.mem_cons_self y seen)

theorem dedupGo_eq_self (l : List String) :
    ∀ seen, l.Nodup → (∀ x ∈ l, x ∉ seen) → dedupGo seen l = l := by
  induction l with
  | nil => intro seen _ _; rfl
  | cons y ys ih =>
    intro seen hnd hsn
    have hy : y ∉ seen := hsn y (List.mem_cons_self y ys)
    simp only [dedupGo, if_neg hy]
    congr 1
    refine ih (y :: seen) (List.nodup_cons.mp hnd).2 ?_
    intro x hx hc
    rcases List.mem_cons.mp hc with rfl | hc2
    · exact (List.nodup_cons.mp hnd).1 hx
    · exact hsn x (List.mem_cons_of_mem y hx) hc2

theorem dedupGo_eq_firstOccurrences (l : List String) :
    ∀ seen, dedupGo seen l = firstOccurrences (l.filter (fun y => decide (y ∉ seen))) := by
  induction l with
  | nil => intro seen; simp [dedupGo, firstOccurrences]
  | cons x xs ih =>
    intro seen
    by_cases h : x ∈ seen
    · simp only [dedupGo, if_pos h, List.filter_cons]
      rw [decide_eq_false (by simpa using h)]
      simpa using ih seen
    · simp only [dedupGo, if_neg h, List.filter_cons]
      rw [decide_eq_true (by simpa using h)]
      simp only [if_true]
      rw [firstOccurrences]
      congr 1
      rw [ih (x :: seen), List.filter_filter]
      congr 1
      refine List.filter_congr ?_
      intro y _
      by_cases h1 : y = x <;> by_cases h2 : y ∈ seen <;>
        simp [h1, h2, List.mem_cons]

/-- C5: the deduplication stage keeps exactly the first occurrence of each
exact line (it coincides with the specification-side `firstOccurrences`)
and the survivors form a sublist of the input, so their relative order is
preserved. -/
theorem c5_dedup_first (l : List String) :
    dedupRules l = firstOccurrences l ∧ (dedupRules l).Sublist l := by
  constructor
  · rw [dedupRules, dedupGo_eq_firstOccurrences]
    congr 1
    refine List.filter_eq_self.mpr ?_
    intro a _
    simp
  · exact dedupGo_sublist l []

/-- Witness for C5 at the specification example input `[a, b, a, c]`. -/
theorem c5_witness :
    dedupRules ["a", "b", "a", "c"] = ["a", "b", "c"]
      ∧ (dedupRules ["a", "b", "a", "c"]).Sublist ["a", "b", "a", "c"] :=
  ⟨by decide, (c5_dedup_first ["a", "b", "a", "c"]).2⟩

/-!
## C7: the syntactic-validation predicate
-/

/-- C7 counterexample: the line with an embedded tab character
passes the code filter (only the space character is checked), although
the claim requires every line containing any whitespace to be dropped. -/
theorem c7_counterexample :
    validateRules ["ab\tcd.e"] = ["ab\tcd.e"] ∧ specC7Keep "ab\tcd.e" = false := by
  decide

/-- C7 amended: the validation stage keeps a rule line iff its trimmed
form contains at least one dot, contains no space character (U+0020;
other whitespace such as tab is not checked), and is longer than 3. -/
theorem c7_amended (l : List String) (r : String) :
    r ∈ validateRules l ↔
      r ∈ l ∧ '.' ∈ (jsTrim r).toList ∧ ' ' ∉ (jsTrim r).toList ∧ 3 < (jsTrim r).length := by
  simp [validateRules, List.mem_filter, validateKeep, and_assoc]

/-!
## C8: idempotence of the guarded filter pipeline
-/

/-- C8: if the guarded pipeline succeeds on `l` with output `o`, then
running it again on `o` succeeds with the very same output. -/
theorem c8_idempotent (l o : List String) (h : filterPipeline l = Except.ok o) :
    filterPipeline o = Except.ok o := by
  by_cases h1 : l.length = 0
  · simp [filterPipeline, h1] at h
  · by_cases h2 : (stripComments l).length = 0
    · simp [filterPipeline, h1, h2] at h
    · by_cases h3 : (validateRules (dedupRules (stripComments l))).length = 0
      · simp [filterPipeline, h1, h2, h3] at h
      · by_cases h4 : (validateRules (dedupRules (stripComments l))).length < 100
        · simp [filterPipeline, h1, h2, h3, h4] at h
        · simp only [filterPipeline, if_neg h1, if_neg h2, if_neg h3, if_neg h4,
            Except.ok.injEq] at h
          have hmem : ∀ x ∈ o, x ∈ dedupRules (stripComments l) ∧ validateKeep x = true := by
            intro x hx
            rw [← h] at hx
            exact List.mem_filter.mp hx
          have hstrip : stripComments o = o := by
            refine List.filter_eq_self.mpr ?_
            intro x hx
            have hxd := ((mem_dedupGo x (stripComments l) []).mp (hmem x hx).1).1
            exact (List.mem_filter.mp hxd).2
          have hnodup : o.Nodup := by
            rw [← h]
            exact (dedupGo_nodup (stripComments l) []).filter validateKeep
          have hdedup : dedupRules o = o :=
            dedupGo_eq_self o [] hnodup (by simp)
          have hvalid : validateRules o = o := by
            refine List.filter_eq_self.mpr ?_
            intro x hx
            exact (hmem x hx).2
          have hlen3 : ¬ o.length = 0 := by rw [← h]; exact h3
          have hlen4 : ¬ o.length < 100 := by rw [← h]; exact h4
          simp [filterPipeline, hstrip, hdedup, hvalid, hlen3, hlen4]

/-- One hundred distinct well-formed rule lines, used to exercise the
pipeline concretely. -/
def sampleRules : List String := (List.range 100).map (fun i => "h" ++ toString i ++ ".example.com")

/-- Witness for C8: a concrete successful pipeline run (with a duplicate
line and a comment in the input), rerun on its own output. -/
theorem c8_witness : filterPipeline sampleRules = Except.ok sampleRules :=
  c8_idempotent (sampleRules ++ ["h0.example.com", "# a comment"]) sampleRules (by rfl)

/-!
## Scheduler (cron.ts, `startScheduler`, lines 145-175)

The scheduled tick handler reads the module-level `consecutiveFailures`
counter and

* returns without compiling when `consecutiveFailures >= MAX_FAILURES`;
* also returns without compiling when `consecutiveFailures > 0`
  (the "exponential backoff" branch merely logs and skips the tick);
* otherwise awaits `compileBlocklist()`, resetting the counter to 0 on
  success and incrementing it on failure.
-/

/-- Maximum consecutive failures before giving up (cron.ts line 97). -/
def MAX_FAILURES : Nat := 3

/-- Result of an attempted compilation, as observed by the scheduler. -/
inductive TickOutcome
  | success
  | failure

/-- One scheduler tick, given the counter at tick time and the outcome the
compilation would have if attempted.  Returns whether a compilation was
attempted and the updated counter. -/
def schedulerTick (consecutiveFailures : Nat) (outcome : TickOutcome) : Bool × Nat :=
  if MAX_FAILURES ≤ consecutiveFailures then (false, consecutiveFailures)
  else if 0 < consecutiveFailures then (false, consecutiveFailures)
  else
    match outcome with
    | TickOutcome.success => (true, 0)
    | TickOutcome.failure => (true, consecutiveFailures + 1)

/-- C2 counterexample: at `consecutiveFailures = 1 < MAX_FAILURES` the tick
is skipped entirely (no compilation is attempted), although the claim says
a tick is skipped only once the counter has reached `MAX_FAILURES`. -/
theorem c2_counterexample :
    schedulerTick 1 TickOutcome.success = (false, 1) ∧ 1 < MAX_FAILURES := by
  decide

/-- C2 amended: a tick attempts a compilation iff the counter is 0 at tick
time; on success the counter resets to 0 and on failure it becomes 1; every
tick with a positive counter (not only one at or above `MAX_FAILURES`) is
skipped with the counter unchanged. -/
theorem c2_amended (cf : Nat) (o : TickOutcome) :
    ((schedulerTick cf o).1 = true ↔ cf = 0)
      ∧ schedulerTick 0 TickOutcome.success = (true, 0)
      ∧ schedulerTick 0 TickOutcome.failure = (true, 1)
      ∧ schedulerTick (cf + 1) o = (false, cf + 1) := by
  refine ⟨?_, by decide, by decide, ?_⟩
  · constructor
    · intro h
      by_contra hne
      rcases Nat.exists_eq_succ_of_ne_zero hne with ⟨n, rfl⟩
      unfold schedulerTick at h
      by_cases hm : MAX_FAILURES ≤ n + 1
      · rw [if_pos hm] at h
        simp at h
      · rw [if_neg hm, if_pos (Nat.succ_pos n)] at h
        simp at h
    · rintro rfl
      cases o <;> decide
  · unfold schedulerTick
    by_cases h : MAX_FAILURES ≤ cf + 1
    · rw [if_pos h]
    · rw [if_neg h, if_pos (Nat.succ_pos cf)]

/-!
## Scheduler interleaving (claim C3)

The tick handler is an `async` callback: it checks the failure counter and
then suspends at `await compileBlocklist()`.  Nothing in `startScheduler`
records that a compilation is in flight, so a tick that fires during a
running compilation passes the very same counter check.  This is modelled
as a transition system whose state carries the counter together with the
number of in-flight compilations.
-/

/-- Scheduler state: the failure counter plus the number of compilations
currently in flight. -/
structure SchedState where
  consecutiveFailures : Nat
  running : Nat
deriving DecidableEq

/-- An event of the scheduler: a cron tick firing, or an in-flight
compilation finishing with the given outcome. -/
inductive SchedEvent
  | tick
  | finish (o : TickOutcome)

/-- One step of the scheduler.  A tick runs the guard logic of the handler
(cron.ts 151-162): with a positive counter it skips; otherwise it starts a
compilation — there is no in-flight check before
`await compileBlocklist()` (line 164).  A finish event retires one
in-flight compilation and updates the counter (lines 166-169). -/
def schedStep (s : SchedState) : SchedEvent → SchedState
  | SchedEvent.tick =>
    if MAX_FAILURES ≤ s.consecutiveFailures then s
    else if 0 < s.consecutiveFailures then s
    else { s with running := s.running + 1 }
  | SchedEvent.finish o =>
    if s.running = 0 then s
    else
      match o with
      | TickOutcome.success => { consecutiveFailures := 0, running := s.running - 1 }
      | TickOutcome.failure =>
          { consecutiveFailures := s.consecutiveFailures + 1, running := s.running - 1 }

/-- Run the scheduler from the initial state (counter 0, nothing running)
over a sequence of events. -/
def schedRun (evs : List SchedEvent) : SchedState :=
  evs.foldl schedStep { consecutiveFailures := 0, running := 0 }

/-- C3: two ticks fired while no compilation has yet completed leave two
compilations running concurrently — the scheduler does not serialize
compilations, contradicting the claim that a tick firing during a prior
compilation never starts a second concurrent one. -/
theorem c3_bug :
    (schedRun [SchedEvent.tick, SchedEvent.tick]).running = 2 := by
  decide

/-!
## `securePath` (compile.ts lines 117-127, claim C9)

`securePath` normalizes and resolves the candidate path and then accepts
it iff the resolved string starts with the resolved working directory —
a plain string-prefix test with no separator check.  Node's
`path.normalize` / `path.resolve` are modelled for POSIX paths by segment
processing (empty and `.` segments dropped, `..` popping one segment,
resolution of relative paths against the working directory).
-/

/-- Segment-wise path resolution: processes `.`-, `..`- and empty
segments against an accumulated absolute segment list. -/
def resolveSegs (acc : List String) : List String → List String
  | [] => acc
  | s :: rest =>
    if s = "" ∨ s = "." then resolveSegs acc rest
    else if s = ".." then resolveSegs acc.dropLast rest
    else resolveSegs (acc ++ [s]) rest

/-- Accumulator-style splitter on the slash character. -/
def splitSlashAux (acc : List Char) : List Char → List (List Char)
  | [] => [acc.reverse]
  | c :: cs =>
    if c = '/' then acc.reverse :: splitSlashAux [] cs
    else splitSlashAux (c :: acc) cs

/-- Splits a POSIX path into segments. -/
def splitSegs (p : String) : List String :=
  (splitSlashAux [] p.toList).map String.mk

/-- Model of `path.resolve(path.normalize p)` against the working
directory `cwd` (an absolute path): absolute inputs are normalized from
the root, relative inputs are resolved against `cwd`. -/
def resolvePath (cwd p : String) : String :=
  let base := if strStartsWith p "/" then [] else resolveSegs [] (splitSegs cwd)
  "/" ++ String.intercalate "/" (resolveSegs base (splitSegs p))

/-- `securePath` (compile.ts 117-127): accept iff the resolved path starts
with the resolved working directory, as a string prefix. -/
def securePath (cwd filePath : String) : Except String String :=
  let resolvedPath := resolvePath cwd filePath
  let cwdPath := resolvePath cwd "."
  if strStartsWith resolvedPath cwdPath then Except.ok resolvedPath
  else Except.error "Path traversal attempt detected"

/-- Specification-side notion for claim C9: a resolved path is inside the
working directory iff it is the directory itself or lies strictly below
it (prefix up to a path separator). -/
def insideWorkingDir (cwdPath resolvedPath : String) : Bool :=
  resolvedPath == cwdPath || strStartsWith resolvedPath (cwdPath ++ "/")

/-- C9: the string-prefix check of `securePath` accepts a sibling
directory whose name merely extends the working directory name
(`/app/georlist-evil` beside the working directory `/app/georlist`),
both as an absolute path and via a relative `..` escape, although both
resolved paths are outside the working directory; the claim says such
paths fail with the path-traversal error. -/
theorem c9_bug :
    securePath "/app/georlist" "/app/georlist-evil/adguard-blocklist.txt"
        = Except.ok "/app/georlist-evil/adguard-blocklist.txt"
      ∧ insideWorkingDir "/app/georlist" "/app/georlist-evil/adguard-blocklist.txt" = false
      ∧ securePath "/app/georlist" "../georlist-evil/out.txt"
        = Except.ok "/app/georlist-evil/out.txt"
      ∧ insideWorkingDir "/app/georlist" "/app/georlist-evil/out.txt" = false := by
  exact ⟨rfl, by decide, rfl, by decide⟩

/-!
## Configuration schema (compile.ts lines 31-112, claim C10)

`config.json` is parsed by `JSON.parse` and validated by Ajv against
`configJsonSchema`.  JSON values are modelled by `JsonValue`; objects are
field lists with distinct keys (the shape `JSON.parse` produces).  The
Ajv `format` annotations (`uri` on `homepage` and `source`) are modelled
as accepting — this only enlarges the set of configurations the model
accepts, so universal statements about accepted configurations carry
over; the `pattern` constraints are modelled exactly.
-/

/-- A parsed JSON value. -/
inductive JsonValue
  | str (s : String)
  | num (n : Int)
  | bool (b : Bool)
  | null
  | arr (elems : List JsonValue)
  | obj (fields : List (String × JsonValue))

/-- JS property access `o[key]` on a parsed JSON object (`undefined`,
i.e. `none`, when the key is absent or the value is not an object). -/
def getField (j : JsonValue) (key : String) : Option JsonValue :=
  match j with
  | JsonValue.obj fields => List.lookup key fields
  | _ => none

/-- The string at `o[key]`, with `""` standing for `undefined`; only used
on validated configurations where the field is known to be a string. -/
def getStrField (j : JsonValue) (key : String) : String :=
  match getField j key with
  | some (JsonValue.str s) => s
  | _ => ""

/-- The Ajv pattern `^https://.*` on `source`. -/
def isHttpsUrl (s : String) : Bool := strStartsWith s "https://"

/-- Accumulator-style splitter on the dot character. -/
def splitDotAux (acc : List Char) : List Char → List (List Char)
  | [] => [acc.reverse]
  | c :: cs =>
    if c = '.' then acc.reverse :: splitDotAux [] cs
    else splitDotAux (c :: acc) cs

/-- The Ajv pattern on `version` (anchored `digits.digits.digits`):
exactly three dot-separated nonempty digit runs. -/
def versionPattern (v : String) : Bool :=
  match splitDotAux [] v.toList with
  | [a, b, c] =>
    (decide (0 < a.length) && a.all Char.isDigit)
      && (decide (0 < b.length) && b.all Char.isDigit)
      && (decide (0 < c.length) && c.all Char.isDigit)
  | _ => false

/-- Schema check for one element of `sources` (compile.ts 43-52):
an object with required string fields `name`, `type`
(`"adblock" | "hosts"`), `source` (matching `^https://.*`), and
`additionalProperties: false`. -/
def validSourceItem (j : JsonValue) : Bool :=
  match j with
  | JsonValue.obj fields =>
    (match List.lookup "name" fields with
     | some (JsonValue.str _) => true
     | _ => false)
    && (match List.lookup "type" fields with
        | some (JsonValue.str t) => t == "adblock" || t == "hosts"
        | _ => false)
    && (match List.lookup "source" fields with
        | some (JsonValue.str s) => isHttpsUrl s
        | _ => false)
    && fields.all (fun f => f.1 == "name" || f.1 == "type" || f.1 == "source")
  | _ => false

/-- Top-level keys admitted by `configJsonSchema`
(`additionalProperties: false`). -/
def allowedTopKeys : List String :=
  ["name", "description", "homepage", "license", "version", "updateInterval",
   "sources", "transformations"]

/-- The Ajv validation of `configJsonSchema` (compile.ts 31-64): required
`name`, `description`, `sources`; optional `homepage`, `license`,
`version` (patterned), `updateInterval` (integer ≥ 60), `transformations`
(strings); no additional top-level properties; `sources` a nonempty array
of `validSourceItem`s. -/
def validateConfigB (j : JsonValue) : Bool :=
  match j with
  | JsonValue.obj fields =>
    (match List.lookup "name" fields with
     | some (JsonValue.str _) => true
     | _ => false)
    && (match List.lookup "description" fields with
        | some (JsonValue.str _) => true
        | _ => false)
    && (match List.lookup "homepage" fields with
        | some (JsonValue.str _) => true
        | none => true
        | _ => false)
    && (match List.lookup "license" fields with
        | some (JsonValue.str _) => true
        | none => true
        | _ => false)
    && (match List.lookup "version" fields with
        | some (JsonValue.str v) => versionPattern v
        | none => true
        | _ => false)
    && (match List.lookup "updateInterval" fields with
        | some (JsonValue.num n) => decide (60 ≤ n)
        | none => true
        | _ => false)
    && (match List.lookup "sources" fields with
        | some (JsonValue.arr ss) => decide (1 ≤ ss.length) && ss.all validSourceItem
        | _ => false)
    && (match List.lookup "transformations" fields with
        | some (JsonValue.arr ts) =>
            ts.all (fun t => match t with | JsonValue.str _ => true | _ => false)
        | none => true
        | _ => false)
    && fields.all (fun f => allowedTopKeys.contains f.1)
  | _ => false

/-- The elements of `config.sources` (empty for non-validated shapes). -/
def sourcesList (j : JsonValue) : List JsonValue :=
  match getField j "sources" with
  | some (JsonValue.arr ss) => ss
  | _ => []

/-- `validateConfig` (compile.ts 87-112): the Ajv check followed by the
explicit re-check that every source URL starts with `https://`. -/
def validateConfigRun (j : JsonValue) : Except String Unit :=
  if validateConfigB j then
    if (sourcesList j).all (fun s => isHttpsUrl (getStrField s "source")) then
      Except.ok ()
    else Except.error "Invalid source URL: only HTTPS URLs are allowed."
  else Except.error "Invalid configuration format"

/-- The filter predicate `source.enabled !== false` of compile.ts 217:
on a parsed JSON source, `source.enabled` is `undefined` when the key is
absent, and `undefined !== false` holds. -/
def keepEnabled (s : JsonValue) : Bool :=
  match getField s "enabled" with
  | some (JsonValue.bool false) => false
  | _ => true

/-- `config.sources.filter(source => source.enabled !== false)`. -/
def enabledFilter (ss : List JsonValue) : List JsonValue :=
  ss.filter keepEnabled

theorem lookup_eq_none_of_all_keys_ne {β : Type} (key : String)
    (fields : List (String × β)) (h : ∀ f ∈ fields, (f.1 == key) = false) :
    List.lookup key fields = none := by
  induction fields with
  | nil => rfl
  | cons f fs ih =>
    obtain ⟨k, v⟩ := f
    have hf := h (k, v) (List.mem_cons_self _ _)
    have hne : (key == k) = false := by
      simp only [beq_eq_false_iff_ne] at hf ⊢
      exact fun hc => hf hc.symm
    simp only [List.lookup, hne]
    exact ih (fun g hg => h g (List.mem_cons_of_mem _ hg))

/-- C10: a configuration accepted by the schema admits only `name`,
`type`, `source` on each source object, so no accepted source carries an
`enabled` field, and the filter `source.enabled !== false` of
`compileBlocklist` keeps every source. -/
theorem c10_enabled_filter (j : JsonValue) (h : validateConfigB j = true) :
    ((sourcesList j).all (fun s => (getField s "enabled").isNone)) = true
      ∧ enabledFilter (sourcesList j) = sourcesList j := by
  have hall : ∀ s ∈ sourcesList j, getField s "enabled" = none := by
    intro s hs
    have hvalid : validSourceItem s = true := by
      rcases j with _ | _ | _ | _ | _ | fields
      · exact absurd h (by simp [validateConfigB])
      · exact absurd h (by simp [validateConfigB])
      · exact absurd h (by simp [validateConfigB])
      · exact absurd h (by simp [validateConfigB])
      · exact absurd h (by simp [validateConfigB])
      · simp only [validateConfigB, Bool.and_eq_true] at h
        have hsrc := h.1.1.2
        revert hsrc hs
        simp only [sourcesList, getField]
        cases hL : List.lookup "sources" fields with
        | none => intro hsrc; exact absurd hsrc (by simp)
        | some v =>
          cases v with
          | arr ss =>
            simp only [Bool.and_eq_true, List.all_eq_true]
            intro hs hsrc
            exact hsrc.2 s hs
          | str s2 => intro hsrc; exact absurd hsrc (by simp)
          | num n => intro hsrc; exact absurd hsrc (by simp)
          | bool b => intro hsrc; exact absurd hsrc (by simp)
          | null => intro hsrc; exact absurd hsrc (by simp)
          | obj fs => intro hsrc; exact absurd hsrc (by simp)
    rcases s with _ | _ | _ | _ | _ | sfields
    · exact absurd hvalid (by simp [validSourceItem])
    · exact absurd hvalid (by simp [validSourceItem])
    · exact absurd hvalid (by simp [validSourceItem])
    · exact absurd hvalid (by simp [validSourceItem])
    · exact absurd hvalid (by simp [validSourceItem])
    · simp only [validSourceItem, Bool.and_eq_true, List.all_eq_true] at hvalid
      have hkeys := hvalid.2
      simp only [getField]
      refine lookup_eq_none_of_all_keys_ne "enabled" sfields ?_
      intro f hf
      have hor := hkeys f hf
      rcases Bool.or_eq_true_iff.mp hor with h1 | h1
      · rcases Bool.or_eq_true_iff.mp h1 with h2 | h2
        · rw [beq_iff_eq.mp h2]; decide
        · rw [beq_iff_eq.mp h2]; decide
      · rw [beq_iff_eq.mp h1]; decide
  constructor
  · rw [List.all_eq_true]
    intro s hs
    rw [hall s hs]
    rfl
  · refine List.filter_eq_self.mpr ?_
    intro s hs
    simp only [keepEnabled, hall s hs]

/-- A concrete configuration accepted by the schema, for the C10
witness. -/
def sampleConfig : JsonValue :=
  JsonValue.obj
    [("name", JsonValue.str "georlist"),
     ("description", JsonValue.str "A combined blocklist"),
     ("sources", JsonValue.arr
       [JsonValue.obj
         [("name", JsonValue.str "s1"),
          ("type", JsonValue.str "adblock"),
          ("source", JsonValue.str "https://example.com/a.txt")],
        JsonValue.obj
         [("name", JsonValue.str "s2"),
          ("type", JsonValue.str "hosts"),
          ("source", JsonValue.str "https://example.com/b.txt")]])]

/-- Witness for C10 at a concrete validated configuration. -/
theorem c10_witness :
    ((sourcesList sampleConfig).all (fun s => (getField s "enabled").isNone)) = true
      ∧ enabledFilter (sourcesList sampleConfig) = sourcesList sampleConfig :=
  c10_enabled_filter sampleConfig (by rfl)

/-!
## `fetchWithTimeout` and the fetch loop (compile.ts 148-182, 224-280)

Network I/O is external, so each fetch attempt is an oracle input: either
an HTTP response (status, `Content-Type` header, body text) or a network
failure (timeout abort, DNS error, ...), whose message the model carries
verbatim.  The JS error message quotes the content type in single quotes;
the model drops the quotes, which no claim depends on.
-/

/-- An HTTP response as observed by `fetchWithTimeout`. -/
structure HttpResponse where
  ok : Bool
  status : Nat
  statusText : String
  contentType : Option String
  body : String

/-- Outcome of one network fetch attempt. -/
inductive FetchResult
  | response (r : HttpResponse)
  | netError (msg : String)

/-- The content-type rejection condition of compile.ts 170-172:
`contentType && !contentType.includes('text/') && !contentType.includes('application/')`.
A missing header is `null` (falsy) and an empty header string is also
falsy, so neither is rejected. -/
def contentTypeRejected (ct : Option String) : Bool :=
  match ct with
  | none => false
  | some s =>
    decide (0 < s.length) && !(strIncludes s "text/") && !(strIncludes s "application/")

/-- The raw content-type text used in the error message. -/
def contentTypeText (ct : Option String) : String :=
  match ct with
  | some s => s
  | none => ""

/-- `fetchWithTimeout` (compile.ts 148-182): the HTTPS-scheme check is
outside the `try` (not wrapped); HTTP status and content-type failures,
and network errors, are wrapped in `Failed to fetch <url>: <cause>`. -/
def fetchWithTimeout (url : String) (res : FetchResult) : Except String HttpResponse :=
  if !(strStartsWith url "https://") then Except.error "Only HTTPS URLs are allowed"
  else
    match res with
    | FetchResult.netError m => Except.error ("Failed to fetch " ++ url ++ ": " ++ m)
    | FetchResult.response r =>
      if !r.ok then
        Except.error ("Failed to fetch " ++ url ++ ": HTTP error " ++ toString r.status
          ++ ": " ++ r.statusText ++ " for " ++ url)
      else if contentTypeRejected r.contentType then
        Except.error ("Failed to fetch " ++ url ++ ": Invalid content type "
          ++ contentTypeText r.contentType ++ " for " ++ url ++ ". Expected text content.")
      else Except.ok r

/-- A configured source as used by the fetch loop. -/
structure Source where
  name : String
  type : String
  source : String

/-- The body of the per-source `try` block (compile.ts 229-273): fetch,
re-check `response.ok`, reject empty bodies, normalize lines, reject
documents with no nonempty lines. -/
def processSource (src : Source) (res : FetchResult) : Except String (List String) :=
  match fetchWithTimeout src.source res with
  | Except.error m => Except.error m
  | Except.ok response =>
    if !response.ok then
      Except.error ("HTTP " ++ toString response.status ++ ": " ++ response.statusText)
    else
      let content := response.body
      if (jsTrim content).length = 0 then
        Except.error ("Empty or invalid response from " ++ src.source)
      else
        let lines := normalizeLines content
        if lines.length = 0 then
          Except.error ("No valid lines found in " ++ src.source)
        else Except.ok lines

/-- The wrapped fail-fast error of the fetch loop (compile.ts 278):
identifies the 1-based source index, the source count and the source
name. -/
def wrapMsg (total idx : Nat) (nm msg : String) : String :=
  "Compilation failed at source " ++ toString (idx + 1) ++ "/" ++ toString total
    ++ ": " ++ nm ++ ". Error: " ++ msg

/-- The sequential fetch loop of `compileBlocklist` (compile.ts 224-280):
sources are fetched strictly in order, each successful document's
normalized lines are appended (the batched push of lines 265-270 appends
in order), and the first failure aborts with the wrapped error. -/
def fetchLoop (total : Nat) (oracle : Nat → FetchResult) :
    Nat → List Source → List String → Except String (List String)
  | _, [], acc => Except.ok acc
  | i, src :: rest, acc =>
    match processSource src (oracle i) with
    | Except.error msg => Except.error (wrapMsg total i src.name msg)
    | Except.ok lines => fetchLoop total oracle (i + 1) rest (acc ++ lines)

/-- Fallback source for positional access. -/
def defaultSource : Source := { name := "", type := "", source := "" }

/-- The source at position `i` of the enabled-source list. -/
def sourceAt (l : List Source) (i : Nat) : Source := l.getD i defaultSource

/-!
## The whole run (`compileBlocklist`, compile.ts 187-385, claim C1)

External effects are oracle inputs collected in `RunInput`: the config
file (absent / unparsable / parsed), the per-source fetch outcomes, the
clock values used in the header, and whether the temp-file write and
rename succeed.  The file system is the content of the published output
path (`none` when no artifact exists).  `secureWriteFile` writes a fresh
temporary file and renames it over the published path, so a successful
write replaces the artifact in one step with the complete content; a
failed temp write or rename leaves the published path untouched.  After
the write, `compileBlocklist` compares `statSync(...).size` (UTF-8 bytes
on disk) with `outputContent.length` (JS string length, modelled as the
character count) and throws on mismatch — after the artifact has already
been replaced.
-/

/-- The external inputs of one `compileBlocklist` run. -/
structure RunInput where
  config : Option (Except String JsonValue)
  fetches : Nat → FetchResult
  nowISO : String
  elapsedMs : Nat
  writeOk : Bool
  writeErrMsg : String

/-- Converts a validated JSON source object to the `Source` record the
fetch loop reads. -/
def toSource (j : JsonValue) : Source :=
  { name := getStrField j "name", type := getStrField j "type",
    source := getStrField j "source" }

/-- `config.sources.filter(source => source.enabled !== false)` as the
list of `Source` records (compile.ts 217). -/
def enabledSourcesOf (cfg : JsonValue) : List Source :=
  (enabledFilter (sourcesList cfg)).map toSource

/-- An optional header line (compile.ts 340-342): present and nonempty
string fields produce a comment line, everything falsy produces `''`. -/
def optHeaderLine (cfg : JsonValue) (key label : String) : String :=
  match getField cfg key with
  | some (JsonValue.str h) => if h == "" then "" else ("! " ++ label ++ ": " ++ h)
  | _ => ""

/-- The header block entries (compile.ts 336-347) before
`.filter(Boolean)` removes the empty ones. -/
def headerLines (cfg : JsonValue) (nowISO : String)
    (sourceCount ruleCount elapsedMs : Nat) : List String :=
  ([ "! Title: " ++ getStrField cfg "name",
     "! Last updated: " ++ nowISO,
     "! Description: " ++ getStrField cfg "description",
     optHeaderLine cfg "homepage" "Homepage",
     optHeaderLine cfg "license" "License",
     optHeaderLine cfg "version" "Version",
     "! Source count: " ++ toString sourceCount,
     "! Rule count: " ++ toString ruleCount,
     "! Compilation time: " ++ toString elapsedMs ++ "ms",
     "!" ]).filter (fun s => !(s == ""))

/-- The formatted output text (compile.ts 336-349): the header block
joined with the processed rules, one per line. -/
def assembleOutput (cfg : JsonValue) (nowISO : String) (srcCount elapsedMs : Nat)
    (rules : List String) : String :=
  String.intercalate "\n" (headerLines cfg nowISO srcCount rules.length elapsedMs)
    ++ "\n" ++ String.intercalate "\n" rules

/-- All pure stages of a run before any file-system effect: config
presence, parse, validation, the sequential fetch loop, the filter
pipeline, header assembly, and the minimum-size guard (compile.ts
187-353). -/
def buildOutput (inp : RunInput) : Except String String :=
  match inp.config with
  | none => Except.error "Config file not found"
  | some (Except.error m) => Except.error ("Failed to parse config.json: " ++ m)
  | some (Except.ok config) =>
    match validateConfigRun config with
    | Except.error e => Except.error e
    | Except.ok _ =>
      match fetchLoop (enabledSourcesOf config).length inp.fetches 0
          (enabledSourcesOf config) [] with
      | Except.error e => Except.error e
      | Except.ok allRules =>
        match filterPipeline allRules with
        | Except.error e => Except.error e
        | Except.ok processedRules =>
          if (assembleOutput config inp.nowISO (enabledSourcesOf config).length
              inp.elapsedMs processedRules).length < 1000 then
            Except.error ("CRITICAL: Output too small ("
              ++ toString (assembleOutput config inp.nowISO
                (enabledSourcesOf config).length inp.elapsedMs processedRules).length
              ++ " characters).")
          else Except.ok (assembleOutput config inp.nowISO
            (enabledSourcesOf config).length inp.elapsedMs processedRules)

/-- One whole `compileBlocklist` run: the pure stages, then the
write-and-verify block of compile.ts 355-373 acting on the published
artifact (the returned `Option String`). -/
def compileRun (inp : RunInput) (fs0 : Option String) :
    Except String String × Option String :=
  match buildOutput inp with
  | Except.error e => (Except.error e, fs0)
  | Except.ok content =>
    if inp.writeOk then
      if content.utf8ByteSize ≠ content.length then
        (Except.error ("Failed to write output file: File size mismatch: expected "
            ++ toString content.length ++ ", got " ++ toString content.utf8ByteSize),
          some content)
      else (Except.ok content, some content)
    else (Except.error ("Failed to write output file: " ++ inp.writeErrMsg), fs0)

/-- The only way a failed run can have touched the artifact: the complete
new output (which passed the 1000-character guard) was atomically
published and then the post-write size verification failed because the
UTF-8 byte size differs from the JS string length. -/
def mismatchPublished (inp : RunInput) (fs1 : Option String) : Bool :=
  match buildOutput inp with
  | Except.ok c =>
    (fs1 == some c) && decide (1000 ≤ c.length) && decide (c.utf8ByteSize ≠ c.length)
  | Except.error _ => false

/-!
## Claim C6: the content-type guard
-/

/-- A successful binary response (`application/octet-stream`). -/
def binaryResponse : HttpResponse :=
  { ok := true, status := 200, statusText := "OK",
    contentType := some "application/octet-stream", body := "a.example.com" }

/-- A successful response without a Content-Type header. -/
def headerlessResponse : HttpResponse :=
  { ok := true, status := 200, statusText := "OK",
    contentType := none, body := "a.example.com" }

/-- C6 counterexample: a response with the binary content type
`application/octet-stream` and a response with no Content-Type header are
both returned successfully by `fetchWithTimeout`, although the claim says
both must fail with the unexpected-content-type error. -/
theorem c6_counterexample :
    fetchWithTimeout "https://example.com/list.bin" (FetchResult.response binaryResponse)
        = Except.ok binaryResponse
      ∧ fetchWithTimeout "https://example.com/list" (FetchResult.response headerlessResponse)
        = Except.ok headerlessResponse :=
  ⟨rfl, rfl⟩

/-- C6 amended: for an HTTPS URL and an OK-status response, the fetch
succeeds iff the content-type guard does not fire, and the guard fires
exactly when a nonempty Content-Type header is present that contains
neither `text/` nor `application/`; a missing header is never
rejected. -/
theorem c6_amended (url : String) (r : HttpResponse) (s : String)
    (hu : strStartsWith url "https://" = true) (hok : r.ok = true) :
    (fetchWithTimeout url (FetchResult.response r) = Except.ok r
        ↔ contentTypeRejected r.contentType = false)
      ∧ contentTypeRejected none = false
      ∧ (contentTypeRejected (some s) = true
          ↔ (0 < s.length ∧ strIncludes s "text/" = false
              ∧ strIncludes s "application/" = false)) := by
  refine ⟨?_, rfl, ?_⟩
  · simp only [fetchWithTimeout, hu, hok, Bool.not_true, Bool.false_eq_true, if_false]
    by_cases hr : contentTypeRejected r.contentType
    · simp [hr]
    · simp [hr]
  · simp only [contentTypeRejected, Bool.and_eq_true, Bool.not_eq_true',
      decide_eq_true_eq, and_assoc]

/-- A successful textual response. -/
def textResponse : HttpResponse :=
  { ok := true, status := 200, statusText := "OK",
    contentType := some "text/plain", body := "a.example.com" }

/-- Witness for C6 at a concrete accepted textual response and a concrete
rejected content type. -/
theorem c6_witness :
    (fetchWithTimeout "https://example.com" (FetchResult.response textResponse)
        = Except.ok textResponse
        ↔ contentTypeRejected textResponse.contentType = false)
      ∧ contentTypeRejected none = false
      ∧ (contentTypeRejected (some "image/png") = true
          ↔ (0 < "image/png".length ∧ strIncludes "image/png" "text/" = false
              ∧ strIncludes "image/png" "application/" = false)) :=
  c6_amended "https://example.com" textResponse "image/png" (by decide) rfl

/-!
## Claim C4: fail-fast sequential fetching
-/

theorem fetchLoopStep (total : Nat) (oracle : Nat → FetchResult) (k : Nat)
    (s : Source) (rest : List Source) (acc : List String) :
    fetchLoop total oracle k (s :: rest) acc
      = match processSource s (oracle k) with
        | Except.error msg => Except.error (wrapMsg total k s.name msg)
        | Except.ok lines => fetchLoop total oracle (k + 1) rest (acc ++ lines) := by
  rfl

theorem fetchLoop_error_at (total : Nat) (oracle : Nat → FetchResult) :
    ∀ (l : List Source) (k i : Nat) (msg : String) (acc : List String),
      i < l.length →
      (∀ j, j < i → (processSource (sourceAt l j) (oracle (k + j))).isOk = true) →
      processSource (sourceAt l i) (oracle (k + i)) = Except.error msg →
      fetchLoop total oracle k l acc
        = Except.error (wrapMsg total (k + i) (sourceAt l i).name msg) := by
  intro l
  induction l with
  | nil =>
    intro k i msg acc hlen
    exact absurd hlen (by simp)
  | cons s rest ih =>
    intro k i msg acc hlen hok hbad
    rcases i with _ | n
    · simp only [sourceAt, List.getD_cons_zero, Nat.add_zero] at hbad ⊢
      rw [fetchLoopStep, hbad]
    · have hok0 := hok 0 (Nat.succ_pos n)
      simp only [sourceAt, List.getD_cons_zero, Nat.add_zero] at hok0
      cases hps : processSource s (oracle k) with
      | error e =>
        rw [hps] at hok0
        exact absurd hok0 (by simp [Except.isOk, Except.toBool])
      | ok lines =>
        rw [fetchLoopStep, hps]
        show fetchLoop total oracle (k + 1) rest (acc ++ lines)
          = Except.error (wrapMsg total (k + (n + 1)) (sourceAt (s :: rest) (n + 1)).name msg)
        have hargn : k + (n + 1) = (k + 1) + n := by omega
        have hok2 : ∀ j, j < n →
            (processSource (sourceAt rest j) (oracle ((k + 1) + j))).isOk = true := by
          intro j hj
          have hone := hok (j + 1) (Nat.succ_lt_succ hj)
          have harg : k + (j + 1) = (k + 1) + j := by omega
          rw [harg] at hone
          simp only [sourceAt, List.getD_cons_succ] at hone
          exact hone
        have hbad2 : processSource (sourceAt rest n) (oracle ((k + 1) + n))
            = Except.error msg := by
          have hb := hbad
          rw [hargn] at hb
          simp only [sourceAt, List.getD_cons_succ] at hb
          exact hb
        have hlen2 : n < rest.length := Nat.lt_of_succ_lt_succ hlen
        rw [ih (k + 1) n msg (acc ++ lines) hlen2 hok2 hbad2, hargn]
        simp only [sourceAt, List.getD_cons_succ]

/-- C4: with sources fetched strictly in declared order, the first source
whose fetch or body processing fails aborts the run with the wrapped
error naming its 1-based index and name; the outcome does not depend on
the fetch results of any later source; and a run whose fetch stage fails
this way leaves the published artifact untouched. -/
theorem c4_fail_fast (l : List Source) (oracle : Nat → FetchResult) (i : Nat) (msg : String)
    (hlen : i < l.length)
    (hok : ∀ j, j < i → (processSource (sourceAt l j) (oracle j)).isOk = true)
    (hbad : processSource (sourceAt l i) (oracle i) = Except.error msg) :
    fetchLoop l.length oracle 0 l []
        = Except.error (wrapMsg l.length i (sourceAt l i).name msg)
      ∧ (∀ oracle2 : Nat → FetchResult, (∀ j, j ≤ i → oracle2 j = oracle j) →
          fetchLoop l.length oracle2 0 l []
            = Except.error (wrapMsg l.length i (sourceAt l i).name msg))
      ∧ (∀ (inp : RunInput) (fs0 : Option String) (cfg : JsonValue),
          inp.config = some (Except.ok cfg) →
          validateConfigRun cfg = Except.ok () →
          enabledSourcesOf cfg = l →
          inp.fetches = oracle →
          compileRun inp fs0
            = (Except.error (wrapMsg l.length i (sourceAt l i).name msg), fs0)) := by
  have hok0 : ∀ j, j < i → (processSource (sourceAt l j) (oracle (0 + j))).isOk = true := by
    intro j hj
    rw [Nat.zero_add]
    exact hok j hj
  have hbad0 : processSource (sourceAt l i) (oracle (0 + i)) = Except.error msg := by
    rw [Nat.zero_add]
    exact hbad
  have hmain : fetchLoop l.length oracle 0 l []
      = Except.error (wrapMsg l.length i (sourceAt l i).name msg) := by
    have := fetchLoop_error_at l.length oracle l 0 i msg [] hlen hok0 hbad0
    rwa [Nat.zero_add] at this
  refine ⟨hmain, ?_, ?_⟩
  · intro oracle2 hagree
    have hok2 : ∀ j, j < i →
        (processSource (sourceAt l j) (oracle2 (0 + j))).isOk = true := by
      intro j hj
      rw [Nat.zero_add, hagree j (Nat.le_of_lt hj)]
      exact hok j hj
    have hbad2 : processSource (sourceAt l i) (oracle2 (0 + i)) = Except.error msg := by
      rw [Nat.zero_add, hagree i (Nat.le_refl i)]
      exact hbad
    have := fetchLoop_error_at l.length oracle2 l 0 i msg [] hlen hok2 hbad2
    rwa [Nat.zero_add] at this
  · intro inp fs0 cfg hc hv hl hf
    have hbuild : buildOutput inp
        = Except.error (wrapMsg l.length i (sourceAt l i).name msg) := by
      simp only [buildOutput, hc, hv, hf, hl, hmain]
    simp only [compileRun, hbuild]

/-- Three concrete sources for the C4 witness. -/
def w4Sources : List Source :=
  [ { name := "S1", type := "adblock", source := "https://one.example/a.txt" },
    { name := "S2", type := "adblock", source := "https://two.example/b.txt" },
    { name := "S3", type := "hosts", source := "https://three.example/c.txt" } ]

/-- Fetch outcomes for the C4 witness: the first source succeeds, the
second times out, the third would succeed but must never be consulted. -/
def w4Oracle : Nat → FetchResult
  | 0 => FetchResult.response
      { ok := true, status := 200, statusText := "OK",
        contentType := some "text/plain",
        body := "a.example.com\nb.example.com" }
  | 1 => FetchResult.netError "timeout"
  | _ => FetchResult.response
      { ok := true, status := 200, statusText := "OK",
        contentType := some "text/plain", body := "c.example.com" }

/-- Witness for C4: `[S1(ok), S2(times out), S3(ok)]` fails identifying
source 2 of 3 by name. -/
theorem c4_witness :
    fetchLoop w4Sources.length w4Oracle 0 w4Sources []
      = Except.error (wrapMsg w4Sources.length 1 (sourceAt w4Sources 1).name
          "Failed to fetch https://two.example/b.txt: timeout") := by
  have h := c4_fail_fast w4Sources w4Oracle 1
      "Failed to fetch https://two.example/b.txt: timeout"
      (by decide)
      (by
        intro j hj
        have hj0 : j = 0 := by omega
        subst hj0
        rfl)
      (by rfl)
  exact h.1

/-!
## Claim C1: failing runs and the published artifact
-/

theorem buildOutput_ok_length (inp : RunInput) (c : String)
    (h : buildOutput inp = Except.ok c) : 1000 ≤ c.length := by
  unfold buildOutput at h
  split at h
  · exact absurd h (by simp)
  · exact absurd h (by simp)
  · split at h
    · exact absurd h (by simp)
    · split at h
      · exact absurd h (by simp)
      · split at h
        · exact absurd h (by simp)
        · split at h
          · exact absurd h (by simp)
          · rename_i hlt
            have hc := Except.ok.inj h
            rw [← hc]
            omega

/-- C1 amended: a failing `compileBlocklist` run leaves the published
artifact byte-for-byte unchanged, except in exactly one case: when the
complete new output (which passed the 1000-character pre-publish guard)
was already atomically renamed over the published path and only the
post-write size verification failed, because the artifact's UTF-8 byte
size differs from the JS string length of the output. -/
theorem c1_amended (inp : RunInput) (fs0 : Option String)
    (h : (compileRun inp fs0).1.isOk = false) :
    (compileRun inp fs0).2 = fs0
      ∨ mismatchPublished inp (compileRun inp fs0).2 = true := by
  cases hbo : buildOutput inp with
  | error e =>
    left
    simp [compileRun, hbo]
  | ok c =>
    by_cases hw : inp.writeOk
    · by_cases hm : c.utf8ByteSize = c.length
      · exfalso
        simp [compileRun, hbo, hw, hm, Except.isOk, Except.toBool] at h
      · right
        have h2 : (compileRun inp fs0).2 = some c := by
          simp [compileRun, hbo, hw, hm]
        rw [h2]
        simp [mismatchPublished, hbo, hm, buildOutput_ok_length inp c hbo]
    · left
      simp [compileRun, hbo, hw]

/-- A run that fails before any write (missing config file), for the C1
witness. -/
def failInput : RunInput :=
  { config := none, fetches := fun _ => FetchResult.netError "unreachable",
    nowISO := "", elapsedMs := 0, writeOk := true, writeErrMsg := "" }

/-- Witness for C1 at a run failing at the config stage with an existing
artifact. -/
theorem c1_witness :
    (compileRun failInput (some "OLD")).2 = some "OLD"
      ∨ mismatchPublished failInput (compileRun failInput (some "OLD")).2 = true :=
  c1_amended failInput (some "OLD") (by rfl)

/-- A fully valid configuration whose title contains a non-ASCII
character, so the formatted output's UTF-8 byte size exceeds its string
length. -/
def mismatchConfig : JsonValue :=
  JsonValue.obj
    [("name", JsonValue.str "Tést list"),
     ("description", JsonValue.str "A combined blocklist"),
     ("sources", JsonValue.arr
       [JsonValue.obj
         [("name", JsonValue.str "s1"),
          ("type", JsonValue.str "adblock"),
          ("source", JsonValue.str "https://one.example/a.txt")]])]

/-- A run that passes every stage up to and including the atomic publish
and then fails the post-write size verification. -/
def mismatchInput : RunInput :=
  { config := some (Except.ok mismatchConfig),
    fetches := fun _ => FetchResult.response
      { ok := true, status := 200, statusText := "OK",
        contentType := some "text/plain",
        body := String.intercalate "\n" sampleRules },
    nowISO := "2026-10-11T00:00:00.000Z",
    elapsedMs := 5,
    writeOk := true,
    writeErrMsg := "" }

theorem buildOutput_eq_ok (inp : RunInput) (cfg : JsonValue) (rules out : List String)
    (hc : inp.config = some (Except.ok cfg))
    (hv : validateConfigRun cfg = Except.ok ())
    (hf : fetchLoop (enabledSourcesOf cfg).length inp.fetches 0
      (enabledSourcesOf cfg) [] = Except.ok rules)
    (hp : filterPipeline rules = Except.ok out)
    (hlen : ¬ (assembleOutput cfg inp.nowISO (enabledSourcesOf cfg).length
      inp.elapsedMs out).length < 1000) :
    buildOutput inp = Except.ok (assembleOutput cfg inp.nowISO
      (enabledSourcesOf cfg).length inp.elapsedMs out) := by
  simp only [buildOutput, hc, hv, hf, hp, if_neg hlen]

theorem compileRun_mismatch (inp : RunInput) (fs0 : Option String) (c : String)
    (hb : buildOutput inp = Except.ok c) (hw : inp.writeOk = true)
    (hm : c.utf8ByteSize ≠ c.length) :
    compileRun inp fs0
      = (Except.error ("Failed to write output file: File size mismatch: expected "
          ++ toString c.length ++ ", got " ++ toString c.utf8ByteSize), some c) := by
  simp only [compileRun, hb, hw, if_pos hm, if_true]

/-- C1 counterexample: this run fails (its result is an error), yet the
previously published artifact has been replaced — the write stage
published the new content before the failing size verification, so a
failing run does not always leave the artifact unchanged. -/
theorem c1_counterexample :
    (compileRun mismatchInput (some "OLD")).1.isOk = false
      ∧ (compileRun mismatchInput (some "OLD")).2 ≠ some "OLD" := by
  have hlenEq : (assembleOutput mismatchConfig "2026-10-11T00:00:00.000Z"
      (enabledSourcesOf mismatchConfig).length 5 sampleRules).length = 1747 := by rfl
  have hbytesEq : (assembleOutput mismatchConfig "2026-10-11T00:00:00.000Z"
      (enabledSourcesOf mismatchConfig).length 5 sampleRules).utf8ByteSize = 1748 := by rfl
  have hb := buildOutput_eq_ok mismatchInput mismatchConfig sampleRules sampleRules
    (by rfl) (by rfl) (by rfl) (by rfl)
    (by
      show ¬ (assembleOutput mismatchConfig "2026-10-11T00:00:00.000Z"
        (enabledSourcesOf mismatchConfig).length 5 sampleRules).length < 1000
      rw [hlenEq]
      omega)
  have hm : (assembleOutput mismatchConfig "2026-10-11T00:00:00.000Z"
      (enabledSourcesOf mismatchConfig).length 5 sampleRules).utf8ByteSize
      ≠ (assembleOutput mismatchConfig "2026-10-11T00:00:00.000Z"
        (enabledSourcesOf mismatchConfig).length 5 sampleRules).length := by
    rw [hlenEq, hbytesEq]
    omega
  have hr := compileRun_mismatch mismatchInput (some "OLD")
    (assembleOutput mismatchConfig "2026-10-11T00:00:00.000Z"
      (enabledSourcesOf mismatchConfig).length 5 sampleRules) hb (by rfl) hm
  constructor
  · rw [hr]
    rfl
  · rw [hr]
    intro hc
    have heq := Option.some.inj hc
    rw [heq] at hlenEq
    exact absurd hlenEq (by decide)

end Georlist
